import Mathlib

/-!
Verification of the LISA purchase-order pipeline (src/main.rs, src/lib.rs).

The program loads a CSV purchase-order export, filters its rows by a
user-supplied store list, classifies rows by an RFID marker (`$` in the
style-description field), and either writes one normalized CSV per store
(`write_file`) or aggregates a per-store / grand-total report
(`produce_report`).

Shallow embedding conventions:
* a CSV record (`csv::StringRecord`) is a `List String`; positional access
  `record.get(i)` is `List.get? i`;
* Rust panics (`unwrap` / `expect`) are modelled by `Option` (`none` = panic),
  fallible functions returning `anyhow::Result` by `Except`;
* file-system access is abstracted away: each function takes the relevant
  file content as an argument;
* `u32` arithmetic is `Nat` with an explicit `% 2^32` at each addition
  (release-mode wrapping semantics);
* the `f32` box-estimate computation is modelled exactly (round-to-nearest,
  ties-to-even, 24-bit significand) further below.
-/

namespace LISA

/-- A `csv::StringRecord`: an ordered sequence of textual fields. -/
abbrev StringRecord := List String

/-- `prefixMatch p l` decides whether the character list `p` starts `l`
(the primitive under Rust's `str::starts_with`). -/
def prefixMatch : List Char → List Char → Bool
  | [], _ => true
  | _ :: _, [] => false
  | p :: ps, h :: hs => p == h && prefixMatch ps hs

/-- `subMatch p l` decides whether `p` occurs contiguously inside `l`. -/
def subMatch (pat : List Char) : List Char → Bool
  | [] => prefixMatch pat []
  | h :: t => prefixMatch pat (h :: t) || subMatch pat t

/-- Embeds Rust's `str::contains(pat)`: substring containment.  Byte-level
containment on valid UTF-8 coincides with character-level containment
(UTF-8 is self-synchronizing), so we work on the character lists. -/
def containsStr (hay pat : String) : Bool := subMatch pat.data hay.data

theorem prefixMatch_iff (p l : List Char) :
    prefixMatch p l = true ↔ ∃ t, l = p ++ t := by
  induction p generalizing l with
  | nil => simp [prefixMatch]
  | cons c cs ih =>
    cases l with
    | nil => simp [prefixMatch]
    | cons h t =>
      simp only [prefixMatch, Bool.and_eq_true, beq_iff_eq, ih, List.cons_append,
        List.cons.injEq]
      constructor
      · rintro ⟨rfl, u, rfl⟩; exact ⟨u, rfl, rfl⟩
      · rintro ⟨u, rfl, rfl⟩; exact ⟨rfl, u, rfl⟩

theorem subMatch_iff (p l : List Char) :
    subMatch p l = true ↔ ∃ s t, l = s ++ p ++ t := by
  induction l with
  | nil =>
    simp only [subMatch, prefixMatch_iff]
    constructor
    · rintro ⟨t, ht⟩; exact ⟨[], t, ht⟩
    · rintro ⟨s, t, ht⟩
      have h := List.append_eq_nil.mp ht.symm
      have h2 := List.append_eq_nil.mp h.1
      exact ⟨[], by simp [h2.2]⟩
  | cons h t ih =>
    simp only [subMatch, Bool.or_eq_true, prefixMatch_iff, ih]
    constructor
    · rintro (⟨u, hu⟩ | ⟨s, u, hu⟩)
      · exact ⟨[], u, by simpa using hu⟩
      · exact ⟨h :: s, u, by simp [hu]⟩
    · rintro ⟨s, u, hu⟩
      cases s with
      | nil => exact Or.inl ⟨u, by simpa using hu⟩
      | cons a s' =>
        right
        simp only [List.cons_append, List.cons.injEq] at hu
        exact ⟨s', u, hu.2⟩

theorem subMatch_singleton (c : Char) (l : List Char) :
    subMatch [c] l = true ↔ c ∈ l := by
  rw [subMatch_iff]
  constructor
  · rintro ⟨s, t, rfl⟩; simp
  · intro hc
    rcases List.append_of_mem hc with ⟨s, t, rfl⟩
    exact ⟨s, t, by simp⟩

/-! ## Record Loader (`read_file`, src/main.rs:60-70) -/

/-- Error taxonomy of the loader (spec §7). -/
inductive LoadError
  | resourceUnavailable
  | malformedRecord
deriving DecidableEq

/-- Embeds `read_file` (src/main.rs:60-70).  The `csv::Reader` is built with
its default configuration: the first record is taken as the header, and
iteration yields `Err(UnequalLengths)` as soon as a record's field count
differs from the header's, which `read_file` propagates with `?`, returning
no partial result.  File content is passed in as `header` and `rows`. -/
def read_file (header : StringRecord) (rows : List StringRecord) :
    Except LoadError (List StringRecord) :=
  if rows.all (fun r => r.length == header.length) then .ok rows
  else .error .malformedRecord

/-! ## Store Filter (`filter_store`, src/main.rs:81-99) -/

/-- The inner loop of `filter_store` for one separator-prefixed pattern:
scan all records in order and keep those whose field 0 contains `pat`.
`record.get(0).expect(...)` panics (`none`) when field 0 is absent. -/
def filterOnePat (pat : String) : List StringRecord → Option (List StringRecord)
  | [] => some []
  | r :: rs => do
    let po ← r[0]?
    let rest ← filterOnePat pat rs
    pure (if containsStr po pat then r :: rest else rest)

/-- Embeds `filter_store` (src/main.rs:81-99): for each store number `num`
in `l` (in order, duplicates kept), append every record whose field 0
contains `"-" ++ num` as a substring. -/
def filter_store (records : List StringRecord) : List String → Option (List StringRecord)
  | [] => some []
  | num :: rest => do
    let first ← filterOnePat ("-" ++ num) records
    let later ← filter_store records rest
    pure (first ++ later)

/-! ## Tag Classifier (`has_rfid`, src/main.rs:110-121) -/

/-- Embeds `has_rfid` (src/main.rs:110-121): field 4 (style description)
contains the character `$`.  `record.get(4).unwrap()` panics (`none`) when
field 4 is absent. -/
def has_rfid (record : StringRecord) : Option Bool := do
  let d ← record[4]?
  pure (containsStr d "$")

/-! ## Store-List Parser (`list`, src/main.rs:137-155) -/

/-- Embeds `content.lines().collect::<String>()` from `list()`
(src/main.rs:140-145).  Rust `str::lines` splits at `\n`, stripping a `\r`
that immediately precedes the `\n`; collecting into a `String` concatenates
the line bodies.  Net effect: every `\n` is removed, a `\r` is removed
exactly when immediately followed by `\n`, every other character is kept
in order. -/
def linesConcat : List Char → List Char
  | [] => []
  | '\r' :: '\n' :: rest => linesConcat rest
  | '\n' :: rest => linesConcat rest
  | c :: rest => c :: linesConcat rest

/-- Embeds `list` (src/main.rs:137-155): strip line endings by concatenating
the lines of the store-list file content, then split on `,` (Rust
`str::split(",")`: `n` separators yield `n+1` tokens, empties included). -/
def list (content : String) : List String :=
  (List.splitOn ',' (linesConcat content.data)).map (fun l => String.mk l)

/-! ## Partitioned Writer (`write_file`, src/main.rs:157-234)

File-system effects are abstracted: `write_file_stores` gives the partition
keys (one `<key>.csv` file each) and `write_file_rows` the data rows written
into one partition's file (after the header row `Po, StyleCode, ColorCode,
MsrpSize, StyleDesc, ColorDesc, Upc, StoreNum, Qty` that
`csv::Writer::serialize` derives from the `Order` struct). -/

/-- The serialized `Order` of the first `write_file` branch
(src/main.rs:205-215): fields 0-6 copied, `store_num` forced to the empty
string, `qty` forced to `"0"`. -/
def orderZeroed (item : StringRecord) : Option StringRecord := do
  let po ← item[0]?
  let style ← item[1]?
  let colorCode ← item[2]?
  let size ← item[3]?
  let styleDesc ← item[4]?
  let colorDesc ← item[5]?
  let upc ← item[6]?
  pure [po, style, colorCode, size, styleDesc, colorDesc, upc, "", "0"]

/-- The serialized `Order` of the second `write_file` branch
(src/main.rs:217-227): fields 0-6 and `qty` (field 8) copied, `store_num`
forced to the empty string. -/
def orderCopied (item : StringRecord) : Option StringRecord := do
  let po ← item[0]?
  let style ← item[1]?
  let colorCode ← item[2]?
  let size ← item[3]?
  let styleDesc ← item[4]?
  let colorDesc ← item[5]?
  let upc ← item[6]?
  let qty ← item[8]?
  pure [po, style, colorCode, size, styleDesc, colorDesc, upc, "", qty]

/-- The partition keys of `write_file` (src/main.rs:171-174): the distinct
field-0 values of the records (`HashSet`, whose unspecified iteration order
we fix as first-occurrence order; `record.get(0).unwrap()` panics on a
missing field 0). -/
def keysOf : List StringRecord → Option (List String)
  | [] => some []
  | r :: rs => do
    let k ← r[0]?
    let ks ← keysOf rs
    pure (k :: ks)

def write_file_stores (records : List StringRecord) : Option (List String) := do
  let keys ← keysOf records
  pure keys.dedup

/-- Embeds the inner loop of `write_file` (src/main.rs:192-229) for one
partition `store`: for every record in original order, `has_rfid` is
evaluated (panicking on a missing field 4, regardless of the partition) and
field 0 is compared with `store`; a matching record is serialized by the
zeroed branch when `has_rfid && !print_all`, else by the copying branch.
(The `debug!` log line's accesses are only evaluated with logging enabled
and are not modelled.) -/
def write_file_rows (store : String) (print_all : Bool) :
    List StringRecord → Option (List StringRecord)
  | [] => some []
  | item :: rest => do
    let tagged ← has_rfid item
    let po ← item[0]?
    let others ← write_file_rows store print_all rest
    if tagged && !print_all && po == store then do
      let row ← orderZeroed item
      pure (row :: others)
    else if po == store then do
      let row ← orderCopied item
      pure (row :: others)
    else
      pure others

/-! ## Report Aggregator (`produce_report`, src/main.rs:246-345)

`produce_report` first runs `list`, `read_file` and `filter_store` (modelled
above) and then aggregates the filtered records; `produce_report_core` below
embeds that aggregation (src/main.rs:252-345). -/

/-- Failure modes of the aggregation: a positional `unwrap` panic, or the
`?`-propagated `u32` parse failure of the quantity field
(`item.get(8).unwrap().parse()?`, src/main.rs:266). -/
inductive RepError
  | fieldPanic
  | invalidQuantity
deriving DecidableEq

def orPanic {α : Type} : Option α → Except RepError α
  | some a => .ok a
  | none => .error .fieldPanic

/-- Decimal digit value of a character, as accepted by Rust's integer
parsing (ASCII `0`-`9` only). -/
def decDigit (c : Char) : Option Nat :=
  if '0' ≤ c ∧ c ≤ '9' then some (c.toNat - 48) else none

/-- Value of a nonempty all-digit character list. -/
def digitsVal (l : List Char) : Option Nat :=
  if l.isEmpty then none
  else l.foldlM (fun acc c => (decDigit c).map (fun d => acc * 10 + d)) 0

/-- Embeds Rust `str::parse::<u32>()`: an optional leading `+`, then one or
more ASCII digits, value at most `u32::MAX` (overflow is a parse error). -/
def parseU32 (s : String) : Option Nat :=
  (match s.data with
    | '+' :: rest => digitsVal rest
    | l => digitsVal l).bind
    (fun v => if v < 4294967296 then some v else none)

/-- The per-record accumulator struct `Store` of `produce_report`
(src/main.rs:253-257).  NOTE the source's naming inversion
(src/main.rs:269-280): a record with `has_rfid = true` stores its quantity
in `qty_without_rfid` and vice versa; the report's printed labels swap the
two back, so the observable totals come out right. -/
structure Store where
  store_number : String
  qty_with_rfid : Nat
  qty_without_rfid : Nat
deriving DecidableEq

/-- The first loop of the aggregation (src/main.rs:264-283): for each
filtered record, in order, read field 0, parse field 8 as `u32`
(`InvalidQuantity` on failure), classify with `has_rfid`, and push a
`Store` entry carrying the quantity in exactly one of the two counters. -/
def mkStores : List StringRecord → Except RepError (List Store)
  | [] => .ok []
  | item :: rest => do
    let po ← orPanic item[0]?
    let qtyStr ← orPanic item[8]?
    let qty ← match parseU32 qtyStr with
      | some q => Except.ok q
      | none => Except.error RepError.invalidQuantity
    let tagged ← orPanic (has_rfid item)
    let others ← mkStores rest
    .ok ((if tagged then ⟨po, 0, qty⟩ else ⟨po, qty, 0⟩) :: others)

/-- `u32` addition with release-mode wrap-around. -/
def add32 (a b : Nat) : Nat := (a + b) % 4294967296

/-- The per-key accumulation `with_rfid += store.qty_with_rfid`
(src/main.rs:296-305); the source updates both counters in one pass over
`stores`, which equals these two independent folds. -/
def sumWith (stores : List Store) (key : String) : Nat :=
  stores.foldl
    (fun acc s => if s.store_number == key then add32 acc s.qty_with_rfid else acc) 0

def sumWithout (stores : List Store) (key : String) : Nat :=
  stores.foldl
    (fun acc s => if s.store_number == key then add32 acc s.qty_without_rfid else acc) 0

/-! ### Exact model of the `f32` box computation

The source computes every box estimate as
`((with_rfid as f32 + without_rfid as f32) / 60.0).ceil()`
(src/main.rs:315, 334, 341).  `u32 as f32` and `f32` addition and division
round to nearest, ties to even, onto a 24-bit-significand grid; `ceil` and
the comparison against `60.0` are exact.  The model below reproduces this
with exact natural/rational arithmetic (exponent range unbounded, which is
adequate far beyond the `u32` inputs that occur). -/

/-- `⌊log₂ n⌋` by fuelled structural recursion (exact for `n < 2^64`). -/
def natLog2Fuel : Nat → Nat → Nat
  | _, 0 => 0
  | n, fuel + 1 => if n < 2 then 0 else natLog2Fuel (n / 2) fuel + 1

def log2floor (n : Nat) : Nat := natLog2Fuel n 64

/-- Round `n` to the nearest multiple of `g > 0`, ties to the even
multiple. -/
def roundEvenNat (g n : Nat) : Nat :=
  let q := n / g
  let r := n % g
  if 2 * r < g then q * g
  else if g < 2 * r then (q + 1) * g
  else if q % 2 = 0 then q * g else (q + 1) * g

/-- `n as f32` for a nonnegative integer: exact below `2^24`, otherwise
round-to-nearest-even onto the grid of step `2^(⌊log₂ n⌋ - 23)`. -/
def f32ofNat (n : Nat) : Nat :=
  if n < 16777216 then n
  else roundEvenNat (2 ^ (log2floor n - 23)) n

/-- Largest `e` with `60 * 2^e ≤ x` (call with `t = 60`; fuelled). -/
def bUpAux (x : Nat) : Nat → Nat → Nat
  | _, 0 => 0
  | t, fuel + 1 => if t * 2 ≤ x then bUpAux x (t * 2) fuel + 1 else 0

/-- Least `c` with `60 ≤ x * 2^c` (fuelled). -/
def bDownAux : Nat → Nat → Nat
  | _, 0 => 0
  | x, fuel + 1 => if 60 ≤ x then 0 else bDownAux (x * 2) fuel + 1

/-- `⌈f32round (x / 60)⌉` for an integer-valued nonnegative `f32` input `x`:
the binade exponent `e` of `x/60` gives the grid step `2^(e-23) = gn/gd`;
the quotient is rounded to the grid by cross-multiplied comparison (ties to
even), and the ceiling of the rounded value is returned. -/
def ceilF32DivSixty (x : Nat) : Nat :=
  if x = 0 then 0
  else
    let t : Int := (if 60 ≤ x then (bUpAux x 60 64 : Int) else -(bDownAux x 64 : Int)) - 23
    let gn : Nat := if 0 ≤ t then 2 ^ t.toNat else 1
    let gd : Nat := if 0 ≤ t then 1 else 2 ^ (-t).toNat
    let q : Nat := x * gd / (60 * gn)
    let m : Nat :=
      if 2 * x * gd < (2 * q + 1) * (60 * gn) then q
      else if (2 * q + 1) * (60 * gn) < 2 * x * gd then q + 1
      else if q % 2 = 0 then q else q + 1
    (m * gn + gd - 1) / gd

/-- The box count the code computes for totals `a` and `b`:
`((a as f32 + b as f32) / 60.0).ceil()`. -/
def f32boxes (a b : Nat) : Nat :=
  ceilF32DivSixty (f32ofNat (f32ofNat a + f32ofNat b))

/-- The exact-integer-arithmetic box estimate the spec states:
`⌈total / 60⌉`. -/
def exactBoxes (total : Nat) : Nat := (total + 59) / 60

/-- The `Report` struct (src/main.rs:237-243): all fields are the decimal
renderings the source produces with `to_string()` (for `boxes`, the `f32`
`Display` of an exactly integral value below `2^24` prints its digits). -/
structure Report where
  num_stores : String
  total_labels : String
  with_rfid : String
  without_rfid : String
  boxes : String
deriving DecidableEq

/-- Embeds the aggregation of `produce_report` (src/main.rs:252-345) on the
already-filtered records: build the `Store` entries, collect the distinct
field-0 keys (`HashSet` order abstracted to first occurrence; all grand
aggregates are order-independent), and fold the per-key sums into the grand
totals (`u32` wrap-around each step, two counters of one loop split into
independent folds). -/
def produce_report_core (results : List StringRecord) : Except RepError Report := do
  let stores ← mkStores results
  let keys ← orPanic (keysOf results)
  let keyset := keys.dedup
  let total_with := keyset.foldl (fun acc k => add32 acc (sumWith stores k)) 0
  let total_without := keyset.foldl (fun acc k => add32 acc (sumWithout stores k)) 0
  let total_stores := keyset.length % 4294967296
  .ok
    { num_stores := toString total_stores
      total_labels := toString (add32 total_with total_without)
      with_rfid := toString total_with
      without_rfid := toString total_without
      boxes := toString (f32boxes total_with total_without) }

/-! ## Characterization lemmas for the Store Filter -/

theorem filterOnePat_eq (pat : String) (records : List StringRecord)
    (h0 : ∀ r ∈ records, r[0]?.isSome) :
    filterOnePat pat records =
      some (records.filter fun r => containsStr (r.getD 0 "") pat) := by
  induction records with
  | nil => rfl
  | cons r rs ih =>
    obtain ⟨po, hpo⟩ := Option.isSome_iff_exists.mp (h0 r (by simp))
    have hd : r.getD 0 "" = po := by simp [List.getD, hpo]
    have ih' := ih (fun x hx => h0 x (by simp [hx]))
    simp only [filterOnePat, hpo, ih', Option.bind_eq_bind, Option.some_bind,
      List.filter_cons, hd]
    by_cases hc : containsStr po pat = true
    · simp [hc]
    · rw [Bool.not_eq_true] at hc
      simp [hc]

theorem filter_store_eq (records : List StringRecord) (l : List String)
    (h0 : ∀ r ∈ records, r[0]?.isSome) :
    filter_store records l =
      some (l.flatMap fun num =>
        records.filter fun r => containsStr (r.getD 0 "") ("-" ++ num)) := by
  induction l with
  | nil => rfl
  | cons num rest ih =>
    simp only [filter_store, filterOnePat_eq _ _ h0, ih, Option.bind_eq_bind,
      Option.some_bind, List.flatMap_cons, Option.pure_def]

theorem sum_map_ite_const {α : Type} (l : List α) (p : α → Bool) (c : Nat) :
    (l.map (fun a => if p a then c else 0)).sum = l.countP p * c := by
  induction l with
  | nil => simp
  | cons a l ih =>
    by_cases h : p a <;>
      simp [List.countP_cons, h, ih, Nat.add_mul, Nat.add_comm]

/-- Claim C2: `filter_store` iterates identifier-major (outer loop over the
identifier list in order, inner loop over the records in order), appending
for each identifier every record whose field 0 contains `"-" ++ id` as a
substring; duplicates in the list are not removed, so a record matching `k`
identifier occurrences appears exactly `k` times (per copy of the record),
and an identifier with no matching records contributes nothing and is not
an error. -/
theorem filter_store_identifier_major (records : List StringRecord) (l : List String)
    (h0 : ∀ r ∈ records, r[0]?.isSome) :
    filter_store records l =
      some (l.flatMap fun num =>
        records.filter fun r => containsStr (r.getD 0 "") ("-" ++ num))
    ∧ ∀ out row, filter_store records l = some out →
        out.count row =
          l.countP (fun num => containsStr (row.getD 0 "") ("-" ++ num)) *
            records.count row := by
  refine ⟨filter_store_eq records l h0, ?_⟩
  intro out row hout
  rw [filter_store_eq records l h0] at hout
  cases hout
  rw [List.count_flatMap]
  have hterm : ∀ num : String,
      (List.count row ∘ fun num =>
        records.filter fun r => containsStr (r.getD 0 "") ("-" ++ num)) num =
      (fun num =>
        if containsStr (row.getD 0 "") ("-" ++ num) = true then records.count row
        else 0) num := by
    intro num
    by_cases hm : containsStr (row.getD 0 "") ("-" ++ num) = true
    · simp only [Function.comp_apply, if_pos hm]
      exact List.count_filter hm
    · simp only [Function.comp_apply, if_neg hm]
      refine List.count_eq_zero.mpr ?_
      intro hmem
      have h2 := List.of_mem_filter hmem
      exact hm h2
  rw [List.map_congr_left (fun num _ => hterm num), sum_map_ite_const]

/-- Witness for C2: one record with key `"a-01"`, duplicated identifier
list `["01", "01"]`: the record is returned twice. -/
theorem filter_store_identifier_major_witness :
    filter_store [["a-01", "x", "y", "z", "w", "v", "u", "7", "3"]] ["01", "01"] =
      some [["a-01", "x", "y", "z", "w", "v", "u", "7", "3"],
            ["a-01", "x", "y", "z", "w", "v", "u", "7", "3"]] := by
  rw [(filter_store_identifier_major
    [["a-01", "x", "y", "z", "w", "v", "u", "7", "3"]] ["01", "01"] (by decide)).1]
  decide

/-- Claim C10: an empty identifier token is prefixed with the separator,
giving the pattern `"-"`, so it matches exactly the records whose key field
contains the character `-` anywhere (in general a nonempty match set). -/
theorem filter_store_empty_token (records : List StringRecord)
    (h0 : ∀ r ∈ records, r[0]?.isSome) :
    filter_store records [""] =
      some (records.filter fun r => containsStr (r.getD 0 "") "-")
    ∧ ∀ r ∈ records,
        (containsStr (r.getD 0 "") "-" = true ↔ '-' ∈ (r.getD 0 "").data) := by
  constructor
  · have h := filter_store_eq records [""] h0
    simpa using h
  · intro r _
    exact subMatch_singleton '-' (r.getD 0 "").data

/-- Witness for C10: the empty token matches the record keyed `"po-001"`
(its key contains `-`), so the match set is nonempty. -/
theorem filter_store_empty_token_witness :
    filter_store [["po-001", "x", "y", "z", "w", "v", "u", "7", "3"]] [""] =
      some [["po-001", "x", "y", "z", "w", "v", "u", "7", "3"]] := by
  rw [(filter_store_empty_token
    [["po-001", "x", "y", "z", "w", "v", "u", "7", "3"]] (by decide)).1]
  decide

/-- Claim C4: `has_rfid` returns `true` iff the style-description field
(position 4) contains the character `$`, with no case or whitespace
normalization; the result depends on no other field (any two records with
the same field 4 agree). -/
theorem has_rfid_marker (r : StringRecord) (d : String) (h : r[4]? = some d) :
    (has_rfid r = some true ↔ '$' ∈ d.data)
    ∧ ∀ s : StringRecord, s[4]? = some d → has_rfid s = has_rfid r := by
  constructor
  · have hs := subMatch_singleton '$' d.data
    simp only [has_rfid, h, Option.bind_eq_bind, Option.some_bind, Option.pure_def,
      Option.some.injEq, containsStr]
    exact hs
  · intro s hs
    simp [has_rfid, h, hs]

/-- Witness for C4: a record whose field 4 is `"desc$"` is classified
tagged; the otherwise different record with the same field 4 classifies
identically. -/
theorem has_rfid_marker_witness :
    has_rfid ["a", "b", "c", "d", "desc$", "e", "f", "g", "h"] = some true ∧
    has_rfid ["z", "z", "z", "z", "desc$", "z", "z", "z", "z"] =
      has_rfid ["a", "b", "c", "d", "desc$", "e", "f", "g", "h"] := by
  have h := has_rfid_marker ["a", "b", "c", "d", "desc$", "e", "f", "g", "h"] "desc$" rfl
  exact ⟨h.1.mpr (by decide), h.2 _ rfl⟩

/-- Claim C6: with the 9-column header of the input format, the loader
returns only rows with exactly 9 accessible positions (access to positions
0-8 succeeds on every loaded row), and any input row that cannot be decoded
into the 9-field shape makes the whole load fail with `MalformedRecord`
(no partial result). -/
theorem read_file_nine_fields (header : StringRecord) (rows out : List StringRecord)
    (h : header.length = 9) :
    (read_file header rows = .ok out →
      ∀ r ∈ out, ∀ i, i < 9 → r[i]?.isSome)
    ∧ ((∃ r ∈ rows, r.length ≠ 9) →
      read_file header rows = .error .malformedRecord) := by
  constructor
  · intro hok r hr i hi
    unfold read_file at hok
    by_cases hall : rows.all (fun r => r.length == header.length) = true
    · rw [if_pos hall] at hok
      cases hok
      have hlen : r.length = 9 := by
        have := List.all_eq_true.mp hall r hr
        simpa [h] using this
      rw [Option.isSome_iff_ne_none, Ne, List.getElem?_eq_none_iff]
      omega
    · rw [if_neg hall] at hok
      cases hok
  · rintro ⟨r, hr, hlen⟩
    unfold read_file
    rw [if_neg]
    intro hall
    have := List.all_eq_true.mp hall r hr
    simp [h] at this
    exact hlen this

/-- Witness for C6: with a 9-field header, a well-shaped row loads with all
nine positions accessible, and an 8-field row aborts the load. -/
theorem read_file_nine_fields_witness :
    read_file ["h0", "h1", "h2", "h3", "h4", "h5", "h6", "h7", "h8"]
        [["a", "b", "c", "d", "e", "f", "g", "h", "i"]] =
      .ok [["a", "b", "c", "d", "e", "f", "g", "h", "i"]] ∧
    ((["a", "b", "c", "d", "e", "f", "g", "h", "i"] : StringRecord)[8]?).isSome = true ∧
    read_file ["h0", "h1", "h2", "h3", "h4", "h5", "h6", "h7", "h8"]
        [["a", "b", "c", "d", "e", "f", "g", "h"]] = .error .malformedRecord := by
  refine ⟨rfl, ?_, ?_⟩
  · exact (read_file_nine_fields ["h0", "h1", "h2", "h3", "h4", "h5", "h6", "h7", "h8"]
      [["a", "b", "c", "d", "e", "f", "g", "h", "i"]]
      [["a", "b", "c", "d", "e", "f", "g", "h", "i"]] rfl).1 rfl _ (by decide) 8
      (by decide)
  · exact (read_file_nine_fields ["h0", "h1", "h2", "h3", "h4", "h5", "h6", "h7", "h8"]
      [["a", "b", "c", "d", "e", "f", "g", "h"]] [] rfl).2
      ⟨["a", "b", "c", "d", "e", "f", "g", "h"], by decide, by decide⟩

/-! ## Store-List Parser: claim C8 -/

/-- The head of the list is a line feed. -/
def headIsLf (l : List Char) : Bool := l.headD ' ' == '\n'

/-- Well-formed line endings: every `\r` is immediately followed by `\n`. -/
def crOk : List Char → Bool
  | [] => true
  | c :: rest => if c == '\r' then headIsLf rest && crOk rest else crOk rest

/-- A character that is not a newline character (`\n` or `\r`). -/
def noNl (c : Char) : Bool := !(c == '\n' || c == '\r')

theorem linesConcat_eq_filter (l : List Char) (h : crOk l = true) :
    linesConcat l = l.filter noNl := by
  induction l using linesConcat.induct with
  | case1 => rfl
  | case2 rest ih => exact ih h
  | case3 rest ih => exact ih h
  | case4 c rest hne hn ih =>
    have hn' : c ≠ '\n' := fun hc => hn hc
    by_cases hcr : c = '\r'
    · subst hcr
      simp only [crOk, beq_self_eq_true, if_true, Bool.and_eq_true] at h
      cases rest with
      | nil => simp [headIsLf] at h
      | cons d t =>
        have hd : d = '\n' := by simpa [headIsLf] using h.1
        exact (hne t rfl (by rw [hd])).elim
    · have h' : crOk rest = true := by simpa [crOk, hcr] using h
      have hnoNl : noNl c = true := by simp [noNl, hn', hcr]
      rw [linesConcat.eq_4 c rest hne hn, ih h', List.filter_cons, if_pos hnoNl]

/-- Claim C8: `list` first strips the newline characters (every `\n`, and
the `\r` of each `\r\n` pair) and then splits the remaining text on commas,
returning the tokens in order of occurrence with duplicate and empty tokens
kept: joining the tokens back with commas yields exactly the
newline-stripped content.  (Stated for content with well-formed line
endings, where `\r` occurs only in `\r\n` pairs.) -/
theorem list_strips_newlines_then_splits (content : String)
    (h : crOk content.data = true) :
    LISA.list content =
      (List.splitOn ',' (content.data.filter noNl)).map (fun l => String.mk l)
    ∧ List.intercalate [','] ((LISA.list content).map String.data) =
      content.data.filter noNl := by
  have hl := linesConcat_eq_filter content.data h
  constructor
  · rw [LISA.list, hl]
  · rw [LISA.list, hl, List.map_map]
    have hmm : (String.data ∘ fun l => String.mk l) = id := rfl
    rw [hmm, List.map_id]
    exact List.intercalate_splitOn _ ','

/-- Witness for C8: a store list with a CRLF and a LF line break parses to
the in-order comma tokens of the newline-stripped text; note the token
`"002003"` produced by a line break not preceded by a comma, and the
preserved empty token. -/
theorem list_strips_newlines_then_splits_witness :
    LISA.list "001,002\r\n003,,004\n" = ["001", "002003", "", "004"] ∧
    List.intercalate [','] ((LISA.list "001,002\r\n003,,004\n").map String.data) =
      "001,002003,,004".data := by
  have h := list_strips_newlines_then_splits "001,002\r\n003,,004\n" (by decide)
  refine ⟨?_, ?_⟩
  · rw [h.1]; decide
  · rw [h.2]; decide

/-! ## Partitioned Writer: claim C1 -/

theorem eq_nine_of_length (r : StringRecord) (h : r.length = 9) :
    ∃ a0 a1 a2 a3 a4 a5 a6 a7 a8,
      r = [a0, a1, a2, a3, a4, a5, a6, a7, a8] := by
  rcases r with _ | ⟨a0, r⟩
  · simp only [List.length_nil] at h; omega
  rcases r with _ | ⟨a1, r⟩
  · simp only [List.length_cons, List.length_nil] at h; omega
  rcases r with _ | ⟨a2, r⟩
  · simp only [List.length_cons, List.length_nil] at h; omega
  rcases r with _ | ⟨a3, r⟩
  · simp only [List.length_cons, List.length_nil] at h; omega
  rcases r with _ | ⟨a4, r⟩
  · simp only [List.length_cons, List.length_nil] at h; omega
  rcases r with _ | ⟨a5, r⟩
  · simp only [List.length_cons, List.length_nil] at h; omega
  rcases r with _ | ⟨a6, r⟩
  · simp only [List.length_cons, List.length_nil] at h; omega
  rcases r with _ | ⟨a7, r⟩
  · simp only [List.length_cons, List.length_nil] at h; omega
  rcases r with _ | ⟨a8, r⟩
  · simp only [List.length_cons, List.length_nil] at h; omega
  rcases r with _ | ⟨a9, r⟩
  · exact ⟨a0, a1, a2, a3, a4, a5, a6, a7, a8, rfl⟩
  · simp only [List.length_cons, List.length_nil] at h; omega

/-- The row shape the writer emits for a matching source record: fields 0-6
copied, field 7 emptied, field 8 zeroed under the marker rule, else
copied. -/
def emitRow (print_all : Bool) (r : StringRecord) : StringRecord :=
  [r.getD 0 "", r.getD 1 "", r.getD 2 "", r.getD 3 "", r.getD 4 "", r.getD 5 "",
   r.getD 6 "", "",
   if containsStr (r.getD 4 "") "$" && !print_all then "0" else r.getD 8 ""]

theorem write_file_rows_eq (records : List StringRecord) (store : String)
    (print_all : Bool) (h9 : ∀ r ∈ records, r.length = 9) :
    write_file_rows store print_all records =
      some ((records.filter (fun r => r.getD 0 "" == store)).map (emitRow print_all)) := by
  induction records with
  | nil => rfl
  | cons item rest ih =>
    have hlen := h9 item (by simp)
    have ih' := ih (fun x hx => h9 x (by simp [hx]))
    obtain ⟨a0, a1, a2, a3, a4, a5, a6, a7, a8, rfl⟩ := eq_nine_of_length item hlen
    by_cases hkey : a0 = store <;> cases htag : containsStr a4 "$" <;>
      cases print_all <;>
        simp [write_file_rows, has_rfid, orderZeroed, orderCopied, emitRow, ih',
          List.filter_cons, hkey, htag]

/-- Claim C1: every row emitted by the Partitioned Writer stems from a
source record of its partition; its `StoreNum` field (position 7) is the
empty string, its `Qty` field (position 8) is `"0"` exactly when the source
record has the marker (`has_rfid`) and `print_all` is false, otherwise the
source record's quantity field (position 8) verbatim; the remaining seven
fields (positions 0-6) are copied unchanged from the source record. -/
theorem write_file_output_normalized (records : List StringRecord) (store : String)
    (print_all : Bool) (out : List StringRecord) (row : StringRecord)
    (h9 : ∀ r ∈ records, r.length = 9)
    (hout : write_file_rows store print_all records = some out)
    (hrow : row ∈ out) :
    ∃ src ∈ records, src.getD 0 "" = store ∧
      row.getD 7 "" = "" ∧
      row.getD 8 "" =
        (if has_rfid src = some true ∧ print_all = false then "0" else src.getD 8 "") ∧
      (∀ i, i ≤ 6 → row.getD i "" = src.getD i "") := by
  rw [write_file_rows_eq records store print_all h9] at hout
  cases hout
  rcases List.mem_map.mp hrow with ⟨src, hsrcmem, rfl⟩
  have hsrcmem' := List.mem_of_mem_filter hsrcmem
  have hkey := List.of_mem_filter hsrcmem
  have hsrc9 := h9 src hsrcmem'
  obtain ⟨a0, a1, a2, a3, a4, a5, a6, a7, a8, rfl⟩ := eq_nine_of_length src hsrc9
  refine ⟨_, hsrcmem', by simpa using hkey, rfl, ?_, ?_⟩
  · cases htag : containsStr a4 "$" <;> cases print_all <;>
      simp [has_rfid, emitRow, htag]
  · intro i hi
    interval_cases i <;> rfl

/-- Witness for C1: a marker-carrying record of store `"po-001"` written
with `print_all = false` emits the row with emptied store number, zeroed
quantity and fields 0-6 copied. -/
theorem write_file_output_normalized_witness :
    ∃ src ∈ ([["po-001", "sc", "cc", "sz", "d$", "cd", "up", "007", "10"]] :
        List StringRecord),
      src.getD 0 "" = "po-001" ∧
      (["po-001", "sc", "cc", "sz", "d$", "cd", "up", "", "0"] :
          StringRecord).getD 7 "" = "" ∧
      (["po-001", "sc", "cc", "sz", "d$", "cd", "up", "", "0"] :
          StringRecord).getD 8 "" =
        (if has_rfid src = some true ∧ false = false then "0" else src.getD 8 "") ∧
      (∀ i, i ≤ 6 →
        (["po-001", "sc", "cc", "sz", "d$", "cd", "up", "", "0"] :
            StringRecord).getD i "" = src.getD i "") :=
  write_file_output_normalized
    [["po-001", "sc", "cc", "sz", "d$", "cd", "up", "007", "10"]] "po-001" false
    [["po-001", "sc", "cc", "sz", "d$", "cd", "up", "", "0"]]
    ["po-001", "sc", "cc", "sz", "d$", "cd", "up", "", "0"]
    (by decide) (by decide) (by decide)

/-! ## Report Aggregator: reference quantities and helper lemmas -/

/-- Key field (position 0) of a record. -/
def rowKey (r : StringRecord) : String := r.getD 0 ""

/-- Marker status of a record: the Boolean computed by `has_rfid`. -/
def rowTagged (r : StringRecord) : Bool := containsStr (r.getD 4 "") "$"

/-- Parsed quantity (position 8) of a record; `0` when unparseable — only
used under the hypothesis that every quantity parses. -/
def rowQty (r : StringRecord) : Nat := (parseU32 (r.getD 8 "")).getD 0

/-- Reference sum: total quantity of the marker-tagged records of key `k`. -/
def taggedSum (results : List StringRecord) (k : String) : Nat :=
  ((results.filter fun r => rowKey r == k && rowTagged r).map rowQty).sum

/-- Reference sum: total quantity of the untagged records of key `k`. -/
def untaggedSum (results : List StringRecord) (k : String) : Nat :=
  ((results.filter fun r => rowKey r == k && !rowTagged r).map rowQty).sum

/-- Reference sum: total quantity of all records of key `k`. -/
def keyQtySum (results : List StringRecord) (k : String) : Nat :=
  ((results.filter fun r => rowKey r == k).map rowQty).sum

/-- Reference sum: total quantity of all records. -/
def qtySum (results : List StringRecord) : Nat := (results.map rowQty).sum

/-- Reference sum: total quantity of all marker-tagged records. -/
def taggedSumAll (results : List StringRecord) : Nat :=
  ((results.filter rowTagged).map rowQty).sum

/-- Reference sum: total quantity of all untagged records. -/
def untaggedSumAll (results : List StringRecord) : Nat :=
  ((results.filter fun r => !rowTagged r).map rowQty).sum

/-- The `Store` entry `produce_report` pushes for one record
(src/main.rs:269-280, with the source's with/without naming inversion). -/
def storeOf (r : StringRecord) : Store :=
  if rowTagged r then ⟨rowKey r, 0, rowQty r⟩ else ⟨rowKey r, rowQty r, 0⟩

theorem mkStores_eq (results : List StringRecord)
    (h9 : ∀ r ∈ results, r.length = 9)
    (hp : ∀ r ∈ results, (parseU32 (r.getD 8 "")).isSome) :
    mkStores results = .ok (results.map storeOf) := by
  induction results with
  | nil => rfl
  | cons item rest ih =>
    have ih' := ih (fun x hx => h9 x (by simp [hx])) (fun x hx => hp x (by simp [hx]))
    obtain ⟨a0, a1, a2, a3, a4, a5, a6, a7, a8, rfl⟩ :=
      eq_nine_of_length item (h9 item (by simp))
    obtain ⟨q, hq⟩ := Option.isSome_iff_exists.mp
      (hp [a0, a1, a2, a3, a4, a5, a6, a7, a8] (by simp))
    have hq' : parseU32 a8 = some q := hq
    cases htag : containsStr a4 "$" <;>
      simp [mkStores, orPanic, has_rfid, hq', ih', storeOf, rowKey, rowTagged,
        rowQty, htag, bind, Except.bind]

theorem mkStores_err (results : List StringRecord)
    (h9 : ∀ r ∈ results, r.length = 9)
    (he : ∃ r ∈ results, parseU32 (r.getD 8 "") = none) :
    mkStores results = .error .invalidQuantity := by
  induction results with
  | nil => rcases he with ⟨r, hr, _⟩; cases hr
  | cons item rest ih =>
    obtain ⟨a0, a1, a2, a3, a4, a5, a6, a7, a8, rfl⟩ :=
      eq_nine_of_length item (h9 item (by simp))
    rcases he with ⟨r, hr, hre⟩
    rcases List.mem_cons.mp hr with rfl | hmem
    · have hre' : parseU32 a8 = none := hre
      simp [mkStores, orPanic, hre', bind, Except.bind]
    · have ih' := ih (fun x hx => h9 x (by simp [hx])) ⟨r, hmem, hre⟩
      cases hq : parseU32 a8 with
      | none => simp [mkStores, orPanic, hq, bind, Except.bind]
      | some q =>
        cases htag : containsStr a4 "$" <;>
          simp [mkStores, orPanic, has_rfid, hq, htag, ih', bind, Except.bind]

theorem keysOf_eq (results : List StringRecord)
    (h9 : ∀ r ∈ results, r.length = 9) :
    keysOf results = some (results.map rowKey) := by
  induction results with
  | nil => rfl
  | cons item rest ih =>
    have ih' := ih (fun x hx => h9 x (by simp [hx]))
    obtain ⟨a0, a1, a2, a3, a4, a5, a6, a7, a8, rfl⟩ :=
      eq_nine_of_length item (h9 item (by simp))
    simp [keysOf, ih', rowKey]

theorem foldl_filter_ite {β γ : Type} (p : β → Bool) (g : γ → β → γ)
    (l : List β) (init : γ) :
    l.foldl (fun a s => if p s then g a s else a) init = (l.filter p).foldl g init := by
  induction l generalizing init with
  | nil => rfl
  | cons b bs ih =>
    by_cases hp : p b = true <;> simp [List.filter_cons, hp, ih]

theorem foldl_add32_map {β : Type} (l : List β) (g : β → Nat) (acc : Nat)
    (h : acc + (l.map g).sum < 4294967296) :
    l.foldl (fun a k => add32 a (g k)) acc = acc + (l.map g).sum := by
  induction l generalizing acc with
  | nil => simp
  | cons b bs ih =>
    simp only [List.map_cons, List.sum_cons] at h
    have h1 : acc + g b < 4294967296 := by omega
    have ha : add32 acc (g b) = acc + g b := by
      simp [add32, Nat.mod_eq_of_lt h1]
    simp only [List.foldl_cons, ha, List.map_cons, List.sum_cons]
    rw [ih (acc + g b) (by omega)]
    omega

theorem sumWith_eq_sum (stores : List Store) (k : String)
    (h : ((stores.filter fun s => s.store_number == k).map
      (fun s => s.qty_with_rfid)).sum < 4294967296) :
    sumWith stores k = ((stores.filter fun s => s.store_number == k).map
      (fun s => s.qty_with_rfid)).sum := by
  rw [sumWith, foldl_filter_ite, foldl_add32_map _ _ 0 (by simpa using h)]
  exact Nat.zero_add _

theorem sumWithout_eq_sum (stores : List Store) (k : String)
    (h : ((stores.filter fun s => s.store_number == k).map
      (fun s => s.qty_without_rfid)).sum < 4294967296) :
    sumWithout stores k = ((stores.filter fun s => s.store_number == k).map
      (fun s => s.qty_without_rfid)).sum := by
  rw [sumWithout, foldl_filter_ite, foldl_add32_map _ _ 0 (by simpa using h)]
  exact Nat.zero_add _

theorem storeOf_without_sum (results : List StringRecord) (k : String) :
    (((results.map storeOf).filter fun s => s.store_number == k).map
      (fun s => s.qty_without_rfid)).sum = taggedSum results k := by
  induction results with
  | nil => rfl
  | cons r rest ih =>
    cases htag : rowTagged r <;> by_cases hkey : rowKey r = k <;>
      simp [storeOf, htag, hkey, List.filter_cons, taggedSum, ih]

theorem storeOf_with_sum (results : List StringRecord) (k : String) :
    (((results.map storeOf).filter fun s => s.store_number == k).map
      (fun s => s.qty_with_rfid)).sum = untaggedSum results k := by
  induction results with
  | nil => rfl
  | cons r rest ih =>
    cases htag : rowTagged r <;> by_cases hkey : rowKey r = k <;>
      simp [storeOf, htag, hkey, List.filter_cons, untaggedSum, ih]

theorem sum_filter_le (l : List StringRecord) (p : StringRecord → Bool) :
    ((l.filter p).map rowQty).sum ≤ (l.map rowQty).sum := by
  induction l with
  | nil => simp
  | cons r rest ih =>
    by_cases hp : p r = true <;> simp [List.filter_cons, hp] <;> omega

theorem keySum_split (results : List StringRecord) (k : String) :
    taggedSum results k + untaggedSum results k = keyQtySum results k := by
  induction results with
  | nil => rfl
  | cons r rest ih =>
    cases htag : rowTagged r <;> by_cases hkey : rowKey r = k <;>
      simp [taggedSum, untaggedSum, keyQtySum, List.filter_cons, htag, hkey] at ih ⊢ <;>
        omega

theorem allSum_split (results : List StringRecord) :
    untaggedSumAll results + taggedSumAll results = qtySum results := by
  induction results with
  | nil => rfl
  | cons r rest ih =>
    cases htag : rowTagged r <;>
      simp [untaggedSumAll, taggedSumAll, qtySum, List.filter_cons, htag] at ih ⊢ <;>
        omega

theorem sum_ite_mem (ks : List String) (a : String) (c : Nat) (hnd : ks.Nodup)
    (ha : a ∈ ks) :
    (ks.map (fun k => if a == k then c else 0)).sum = c := by
  induction ks with
  | nil => cases ha
  | cons k ks ih =>
    rcases List.nodup_cons.mp hnd with ⟨hk, hnd'⟩
    rcases List.mem_cons.mp ha with rfl | hmem
    · simp only [List.map_cons, List.sum_cons, beq_self_eq_true, if_true]
      have hz : (ks.map (fun j => if a == j then c else 0)).sum = 0 := by
        apply List.sum_eq_zero
        intro x hx
        rcases List.mem_map.mp hx with ⟨j, hj, rfl⟩
        have hne : ¬(a == j) = true := by
          intro hb
          exact hk (by rw [beq_iff_eq.mp hb]; exact hj)
        simp [hne]
      omega
    · have hne : a ≠ k := by
        rintro rfl
        exact hk hmem
      simp only [List.map_cons, List.sum_cons, if_neg hne]
      simp [hne]
      simpa using ih hnd' hmem

theorem sum_over_keys (results : List StringRecord) (p : StringRecord → Bool)
    (ks : List String) (hnd : ks.Nodup)
    (hcov : ∀ x ∈ results, rowKey x ∈ ks) :
    (ks.map (fun k =>
      ((results.filter fun r => rowKey r == k && p r).map rowQty).sum)).sum
      = ((results.filter p).map rowQty).sum := by
  induction results with
  | nil => simp
  | cons x xs ih =>
    have hcov' : ∀ y ∈ xs, rowKey y ∈ ks := fun y hy => hcov y (by simp [hy])
    have ihx := ih hcov'
    by_cases hp : p x = true
    · have hterm : ∀ k ∈ ks,
          (fun k => (((x :: xs).filter fun r => rowKey r == k && p r).map
            rowQty).sum) k =
          (fun k => (if rowKey x == k then rowQty x else 0) +
            ((xs.filter fun r => rowKey r == k && p r).map rowQty).sum) k := by
        intro k _
        by_cases hk : (rowKey x == k) = true <;>
          simp [List.filter_cons, hk, hp]
      rw [List.map_congr_left hterm, List.sum_map_add, sum_ite_mem ks (rowKey x)
        (rowQty x) hnd (hcov x (by simp)), ihx]
      simp [List.filter_cons, hp]
    · have hterm : ∀ k ∈ ks,
          (fun k => (((x :: xs).filter fun r => rowKey r == k && p r).map
            rowQty).sum) k =
          (fun k => ((xs.filter fun r => rowKey r == k && p r).map rowQty).sum) k := by
        intro k _
        simp [List.filter_cons, hp]
      rw [List.map_congr_left hterm, ihx]
      simp [List.filter_cons, hp]

theorem sumWithout_storeOf (results : List StringRecord) (k : String)
    (hb : qtySum results < 4294967296) :
    sumWithout (results.map storeOf) k = taggedSum results k := by
  have hbt : taggedSum results k < 4294967296 :=
    Nat.lt_of_le_of_lt (sum_filter_le results _) hb
  rw [sumWithout_eq_sum _ _ (by rw [storeOf_without_sum]; exact hbt),
    storeOf_without_sum]

theorem sumWith_storeOf (results : List StringRecord) (k : String)
    (hb : qtySum results < 4294967296) :
    sumWith (results.map storeOf) k = untaggedSum results k := by
  have hbu : untaggedSum results k < 4294967296 :=
    Nat.lt_of_le_of_lt (sum_filter_le results _) hb
  rw [sumWith_eq_sum _ _ (by rw [storeOf_with_sum]; exact hbu),
    storeOf_with_sum]

/-- Claim C5: the Report Aggregator parses every row's quantity field as a
nonnegative integer and the whole aggregation fails with `InvalidQuantity`
(no partial report) if any row's quantity does not parse; when all rows
parse, each row's quantity lands in exactly one of its `Store` entry's two
counters (never both), and each key's two accumulated totals are exactly
the marker-tagged and untagged quantity sums of that key's rows. -/
theorem report_parse_and_split (results : List StringRecord)
    (h9 : ∀ r ∈ results, r.length = 9) :
    ((∃ r ∈ results, parseU32 (r.getD 8 "") = none) →
        produce_report_core results = .error .invalidQuantity)
    ∧ ((∀ r ∈ results, (parseU32 (r.getD 8 "")).isSome) →
        qtySum results < 4294967296 →
        mkStores results = .ok (results.map storeOf) ∧
        (∀ st ∈ results.map storeOf,
          st.qty_with_rfid = 0 ∨ st.qty_without_rfid = 0) ∧
        (∀ k, sumWithout (results.map storeOf) k = taggedSum results k ∧
              sumWith (results.map storeOf) k = untaggedSum results k)) := by
  constructor
  · intro he
    have herr := mkStores_err results h9 he
    simp [produce_report_core, herr, bind, Except.bind]
  · intro hp hb
    refine ⟨mkStores_eq results h9 hp, ?_, ?_⟩
    · intro st hst
      rcases List.mem_map.mp hst with ⟨r, _, rfl⟩
      by_cases ht : rowTagged r = true <;> simp [storeOf, ht]
    · intro k
      exact ⟨sumWithout_storeOf results k hb, sumWith_storeOf results k hb⟩

/-- Witness for C5: a row with quantity `"x10"` makes the whole aggregation
fail with `InvalidQuantity`; on the spec's two-row scenario the tagged
accumulator of `"po-001"` is exactly the tagged row's quantity. -/
theorem report_parse_and_split_witness :
    produce_report_core [["po-001", "sc", "cc", "sz", "d", "cd", "up", "007", "x10"]] =
      .error .invalidQuantity ∧
    sumWithout ([["po-001", "sc", "cc", "sz", "d$", "cd", "up", "007", "10"],
        ["po-001", "sc", "cc", "sz", "d", "cd", "up", "007", "5"]].map storeOf)
      "po-001" =
      taggedSum [["po-001", "sc", "cc", "sz", "d$", "cd", "up", "007", "10"],
        ["po-001", "sc", "cc", "sz", "d", "cd", "up", "007", "5"]] "po-001" := by
  constructor
  · exact (report_parse_and_split
      [["po-001", "sc", "cc", "sz", "d", "cd", "up", "007", "x10"]] (by decide)).1
      ⟨["po-001", "sc", "cc", "sz", "d", "cd", "up", "007", "x10"], by decide, by decide⟩
  · exact (((report_parse_and_split
      [["po-001", "sc", "cc", "sz", "d$", "cd", "up", "007", "10"],
       ["po-001", "sc", "cc", "sz", "d", "cd", "up", "007", "5"]] (by decide)).2
      (by decide) (by decide)).2.2 "po-001").1

/-- Claim C9: when every quantity parses (and the grand sum fits in `u32`),
the report's grand label total is the sum of the quantity fields of all
filtered rows, each per-store printed total (per-key tagged plus untagged
accumulator) is the sum of that store's rows' quantities, and the grand
tagged and untagged totals partition the grand total. -/
theorem report_totals_partition (results : List StringRecord)
    (h9 : ∀ r ∈ results, r.length = 9)
    (hp : ∀ r ∈ results, (parseU32 (r.getD 8 "")).isSome)
    (hb : qtySum results < 4294967296) :
    ∃ rep, produce_report_core results = .ok rep ∧
      rep.total_labels = toString (qtySum results) ∧
      rep.with_rfid = toString (untaggedSumAll results) ∧
      rep.without_rfid = toString (taggedSumAll results) ∧
      untaggedSumAll results + taggedSumAll results = qtySum results ∧
      (∀ k, add32 (sumWith (results.map storeOf) k)
          (sumWithout (results.map storeOf) k) = keyQtySum results k) := by
  have hmk := mkStores_eq results h9 hp
  have hkeys := keysOf_eq results h9
  have hndk : (results.map rowKey).dedup.Nodup := List.nodup_dedup _
  have hcov : ∀ x ∈ results, rowKey x ∈ (results.map rowKey).dedup :=
    fun x hx => List.mem_dedup.mpr (List.mem_map_of_mem rowKey hx)
  have hsplit := allSum_split results
  have hbu : untaggedSumAll results < 4294967296 := by omega
  have hbt : taggedSumAll results < 4294967296 := by omega
  have hWsum : ((results.map rowKey).dedup.map
      (fun k => untaggedSum results k)).sum = untaggedSumAll results := by
    have h := sum_over_keys results (fun r => !rowTagged r)
      (results.map rowKey).dedup hndk hcov
    simpa [untaggedSum, untaggedSumAll] using h
  have hWOsum : ((results.map rowKey).dedup.map
      (fun k => taggedSum results k)).sum = taggedSumAll results := by
    have h := sum_over_keys results rowTagged
      (results.map rowKey).dedup hndk hcov
    simpa [taggedSum, taggedSumAll] using h
  have hfW : (fun (acc : Nat) (k : String) =>
        add32 acc (sumWith (results.map storeOf) k))
      = (fun acc k => add32 acc (untaggedSum results k)) := by
    funext acc k
    rw [sumWith_storeOf results k hb]
  have hfWO : (fun (acc : Nat) (k : String) =>
        add32 acc (sumWithout (results.map storeOf) k))
      = (fun acc k => add32 acc (taggedSum results k)) := by
    funext acc k
    rw [sumWithout_storeOf results k hb]
  have hW : (results.map rowKey).dedup.foldl
      (fun acc k => add32 acc (sumWith (results.map storeOf) k)) 0
      = untaggedSumAll results := by
    rw [hfW, foldl_add32_map _ _ 0 (by rw [hWsum]; omega), hWsum, Nat.zero_add]
  have hWO : (results.map rowKey).dedup.foldl
      (fun acc k => add32 acc (sumWithout (results.map storeOf) k)) 0
      = taggedSumAll results := by
    rw [hfWO, foldl_add32_map _ _ 0 (by rw [hWOsum]; omega), hWOsum, Nat.zero_add]
  have hcore : produce_report_core results = .ok
      { num_stores := toString ((results.map rowKey).dedup.length % 4294967296)
        total_labels := toString (add32 (untaggedSumAll results) (taggedSumAll results))
        with_rfid := toString (untaggedSumAll results)
        without_rfid := toString (taggedSumAll results)
        boxes := toString (f32boxes (untaggedSumAll results) (taggedSumAll results)) } := by
    simp only [produce_report_core, hmk, hkeys, orPanic, bind, Except.bind, hW, hWO]
  refine ⟨_, hcore, ?_, rfl, rfl, hsplit, ?_⟩
  · have : add32 (untaggedSumAll results) (taggedSumAll results) = qtySum results := by
      rw [add32, Nat.mod_eq_of_lt (by omega)]
      exact hsplit
    rw [this]
  · intro k
    rw [sumWith_storeOf results k hb, sumWithout_storeOf results k hb]
    have h1 := keySum_split results k
    have h2 : keyQtySum results k ≤ qtySum results := sum_filter_le results _
    rw [add32, Nat.mod_eq_of_lt (by omega)]
    omega

/-- Witness for C9: the spec's two-row scenario (tagged quantity 10,
untagged 5) yields grand total 15 partitioned into 5 untagged and 10
tagged. -/
theorem report_totals_partition_witness :
    ∃ rep, produce_report_core
        [["po-001", "sc", "cc", "sz", "d$", "cd", "up", "007", "10"],
         ["po-001", "sc", "cc", "sz", "d", "cd", "up", "007", "5"]] = .ok rep ∧
      rep.total_labels = toString (qtySum
        [["po-001", "sc", "cc", "sz", "d$", "cd", "up", "007", "10"],
         ["po-001", "sc", "cc", "sz", "d", "cd", "up", "007", "5"]]) ∧
      rep.with_rfid = toString (untaggedSumAll
        [["po-001", "sc", "cc", "sz", "d$", "cd", "up", "007", "10"],
         ["po-001", "sc", "cc", "sz", "d", "cd", "up", "007", "5"]]) ∧
      rep.without_rfid = toString (taggedSumAll
        [["po-001", "sc", "cc", "sz", "d$", "cd", "up", "007", "10"],
         ["po-001", "sc", "cc", "sz", "d", "cd", "up", "007", "5"]]) ∧
      untaggedSumAll
        [["po-001", "sc", "cc", "sz", "d$", "cd", "up", "007", "10"],
         ["po-001", "sc", "cc", "sz", "d", "cd", "up", "007", "5"]] +
        taggedSumAll
        [["po-001", "sc", "cc", "sz", "d$", "cd", "up", "007", "10"],
         ["po-001", "sc", "cc", "sz", "d", "cd", "up", "007", "5"]] =
        qtySum
        [["po-001", "sc", "cc", "sz", "d$", "cd", "up", "007", "10"],
         ["po-001", "sc", "cc", "sz", "d", "cd", "up", "007", "5"]] ∧
      (∀ k, add32 (sumWith
          ([["po-001", "sc", "cc", "sz", "d$", "cd", "up", "007", "10"],
            ["po-001", "sc", "cc", "sz", "d", "cd", "up", "007", "5"]].map storeOf) k)
          (sumWithout
          ([["po-001", "sc", "cc", "sz", "d$", "cd", "up", "007", "10"],
            ["po-001", "sc", "cc", "sz", "d", "cd", "up", "007", "5"]].map storeOf) k)
        = keyQtySum
          [["po-001", "sc", "cc", "sz", "d$", "cd", "up", "007", "10"],
           ["po-001", "sc", "cc", "sz", "d", "cd", "up", "007", "5"]] k) :=
  report_totals_partition
    [["po-001", "sc", "cc", "sz", "d$", "cd", "up", "007", "10"],
     ["po-001", "sc", "cc", "sz", "d", "cd", "up", "007", "5"]]
    (by decide) (by decide) (by decide)

/-! ## Round trip (claim C7) -/

theorem emit_key (p : Bool) (r : StringRecord) :
    rowKey (emitRow p r) = rowKey r := rfl

theorem emit_tag (p : Bool) (r : StringRecord) :
    rowTagged (emitRow p r) = rowTagged r := rfl

theorem emit_qty_true (r : StringRecord) : rowQty (emitRow true r) = rowQty r := by
  simp [rowQty, emitRow]

theorem taggedSum_map_emit (L : List StringRecord) (s : String) :
    taggedSum (L.map (emitRow true)) s = taggedSum L s := by
  induction L with
  | nil => rfl
  | cons r L ih =>
    simp only [taggedSum] at ih ⊢
    simp only [List.map_cons, List.filter_cons, emit_key, emit_tag]
    by_cases hc : (rowKey r == s && rowTagged r) = true
    · rw [if_pos hc, if_pos hc]
      simp only [List.map_cons, List.sum_cons, emit_qty_true, ih]
    · rw [if_neg hc, if_neg hc]
      exact ih

theorem untaggedSum_map_emit (L : List StringRecord) (s : String) :
    untaggedSum (L.map (emitRow true)) s = untaggedSum L s := by
  induction L with
  | nil => rfl
  | cons r L ih =>
    simp only [untaggedSum] at ih ⊢
    simp only [List.map_cons, List.filter_cons, emit_key, emit_tag]
    by_cases hc : (rowKey r == s && !rowTagged r) = true
    · rw [if_pos hc, if_pos hc]
      simp only [List.map_cons, List.sum_cons, emit_qty_true, ih]
    · rw [if_neg hc, if_neg hc]
      exact ih

theorem taggedSum_filter_key (L : List StringRecord) (s : String) :
    taggedSum (L.filter fun r => r.getD 0 "" == s) s = taggedSum L s := by
  induction L with
  | nil => rfl
  | cons r L ih =>
    simp only [taggedSum] at ih ⊢
    simp only [List.filter_cons]
    cases hkey : (r.getD 0 "" == s) with
    | true =>
      rw [if_pos rfl]
      simp only [List.filter_cons]
      by_cases htag : (rowKey r == s && rowTagged r) = true
      · rw [if_pos htag, if_pos htag]
        simp only [List.map_cons, List.sum_cons, ih]
      · rw [if_neg htag, if_neg htag]
        exact ih
    | false =>
      rw [if_neg (by simp)]
      have hkey2 : ¬(List.getD r 0 "" = s) := by
        intro h
        rw [show (List.getD r 0 "" == s) = true from beq_iff_eq.mpr h] at hkey
        cases hkey
      rw [if_neg (by
        intro hc
        rw [Bool.and_eq_true] at hc
        exact hkey2 (beq_iff_eq.mp hc.1))]
      exact ih

theorem untaggedSum_filter_key (L : List StringRecord) (s : String) :
    untaggedSum (L.filter fun r => r.getD 0 "" == s) s = untaggedSum L s := by
  induction L with
  | nil => rfl
  | cons r L ih =>
    simp only [untaggedSum] at ih ⊢
    simp only [List.filter_cons]
    cases hkey : (r.getD 0 "" == s) with
    | true =>
      rw [if_pos rfl]
      simp only [List.filter_cons]
      by_cases htag : (rowKey r == s && !rowTagged r) = true
      · rw [if_pos htag, if_pos htag]
        simp only [List.map_cons, List.sum_cons, ih]
      · rw [if_neg htag, if_neg htag]
        exact ih
    | false =>
      rw [if_neg (by simp)]
      have hkey2 : ¬(List.getD r 0 "" = s) := by
        intro h
        rw [show (List.getD r 0 "" == s) = true from beq_iff_eq.mpr h] at hkey
        cases hkey
      rw [if_neg (by
        intro hc
        rw [Bool.and_eq_true] at hc
        exact hkey2 (beq_iff_eq.mp hc.1))]
      exact ih

/-- Counterexample to C7 as stated: with the default `override_all = false`
the writer zeroes the tagged row's quantity, so re-aggregating the written
rows yields tagged total `"0"` while the pre-split aggregation of the same
store yields `"10"` — the tagged/untagged split is not reproduced. -/
theorem roundtrip_default_fails :
    write_file_rows "po-001" false
        [["po-001", "sc", "cc", "sz", "x$", "cd", "up", "007", "10"]] =
      some [["po-001", "sc", "cc", "sz", "x$", "cd", "up", "", "0"]] ∧
    (produce_report_core
        [["po-001", "sc", "cc", "sz", "x$", "cd", "up", "007", "10"]]).map
      Report.without_rfid = .ok "10" ∧
    (produce_report_core
        [["po-001", "sc", "cc", "sz", "x$", "cd", "up", "", "0"]]).map
      Report.without_rfid = .ok "0" :=
  ⟨rfl, rfl, rfl⟩

/-- Claim C7 amended: the round trip holds when `override_all = true` (the
writer then copies quantities verbatim): aggregating the rows written for
store `s` reproduces exactly the tagged/untagged split that the aggregation
of the pre-split rows computes for `s`. -/
theorem roundtrip_with_override (results : List StringRecord) (s : String)
    (h9 : ∀ r ∈ results, r.length = 9)
    (hp : ∀ r ∈ results, (parseU32 (r.getD 8 "")).isSome)
    (hb : qtySum results < 4294967296) :
    ∃ out, write_file_rows s true results = some out ∧
      ∃ stores1, mkStores out = .ok stores1 ∧
        sumWithout stores1 s = taggedSum results s ∧
        sumWith stores1 s = untaggedSum results s ∧
        sumWithout (results.map storeOf) s = taggedSum results s ∧
        sumWith (results.map storeOf) s = untaggedSum results s := by
  have hwr := write_file_rows_eq results s true h9
  refine ⟨_, hwr, ?_⟩
  have h9out : ∀ x ∈ (results.filter fun r => r.getD 0 "" == s).map (emitRow true),
      x.length = 9 := by
    intro x hx
    rcases List.mem_map.mp hx with ⟨r, _, rfl⟩
    rfl
  have hqout : ∀ r : StringRecord,
      (emitRow true r).getD 8 "" = r.getD 8 "" := by
    intro r
    simp [emitRow]
  have hpout : ∀ x ∈ (results.filter fun r => r.getD 0 "" == s).map (emitRow true),
      (parseU32 (x.getD 8 "")).isSome := by
    intro x hx
    rcases List.mem_map.mp hx with ⟨r, hr, rfl⟩
    rw [hqout r]
    exact hp r (List.mem_of_mem_filter hr)
  have hqty : qtySum ((results.filter fun r => r.getD 0 "" == s).map (emitRow true))
      = keyQtySum results s := by
    rw [qtySum, List.map_map, keyQtySum]
    congr 1
    refine List.map_congr_left ?_
    intro r _
    exact emit_qty_true r
  have hbout : qtySum ((results.filter fun r => r.getD 0 "" == s).map (emitRow true))
      < 4294967296 := by
    rw [hqty]
    exact Nat.lt_of_le_of_lt (sum_filter_le results _) hb
  refine ⟨_, mkStores_eq _ h9out hpout, ?_, ?_,
    sumWithout_storeOf results s hb, sumWith_storeOf results s hb⟩
  · rw [sumWithout_storeOf _ s hbout, taggedSum_map_emit, taggedSum_filter_key]
  · rw [sumWith_storeOf _ s hbout, untaggedSum_map_emit, untaggedSum_filter_key]

/-- Witness for the amended C7: one tagged and one untagged row of store
`"po-001"`, written with the override, re-aggregate to the original split. -/
theorem roundtrip_with_override_witness :
    ∃ out, write_file_rows "po-001" true
        [["po-001", "sc", "cc", "sz", "x$", "cd", "up", "007", "10"],
         ["po-001", "sc", "cc", "sz", "x", "cd", "up", "007", "5"]] = some out ∧
      ∃ stores1, mkStores out = .ok stores1 ∧
        sumWithout stores1 "po-001" = taggedSum
          [["po-001", "sc", "cc", "sz", "x$", "cd", "up", "007", "10"],
           ["po-001", "sc", "cc", "sz", "x", "cd", "up", "007", "5"]] "po-001" ∧
        sumWith stores1 "po-001" = untaggedSum
          [["po-001", "sc", "cc", "sz", "x$", "cd", "up", "007", "10"],
           ["po-001", "sc", "cc", "sz", "x", "cd", "up", "007", "5"]] "po-001" ∧
        sumWithout ([["po-001", "sc", "cc", "sz", "x$", "cd", "up", "007", "10"],
           ["po-001", "sc", "cc", "sz", "x", "cd", "up", "007", "5"]].map storeOf)
          "po-001" = taggedSum
          [["po-001", "sc", "cc", "sz", "x$", "cd", "up", "007", "10"],
           ["po-001", "sc", "cc", "sz", "x", "cd", "up", "007", "5"]] "po-001" ∧
        sumWith ([["po-001", "sc", "cc", "sz", "x$", "cd", "up", "007", "10"],
           ["po-001", "sc", "cc", "sz", "x", "cd", "up", "007", "5"]].map storeOf)
          "po-001" = untaggedSum
          [["po-001", "sc", "cc", "sz", "x$", "cd", "up", "007", "10"],
           ["po-001", "sc", "cc", "sz", "x", "cd", "up", "007", "5"]] "po-001" :=
  roundtrip_with_override
    [["po-001", "sc", "cc", "sz", "x$", "cd", "up", "007", "10"],
     ["po-001", "sc", "cc", "sz", "x", "cd", "up", "007", "5"]] "po-001"
    (by decide) (by decide) (by decide)

/-! ## Box estimate (claim C3) -/

/-- Claim C3 names a code bug: every box estimate is computed in `f32` as
`((with as f32 + without as f32) / 60.0).ceil()`, which departs from the
exact integer `⌈total / 60⌉` the spec states.  At grand total 67109100
(= 60 · 1118485, a single untagged row) the conversion to `f32` rounds up
to 67109104, the division rounds up across the integer 1118485, and the
code reports 1118486 boxes where the exact ceiling is 1118485. -/
theorem boxes_f32_code_bug :
    produce_report_core
        [["po-001", "sc", "cc", "sz", "d", "cd", "up", "007", "67109100"]] =
      .ok { num_stores := "1", total_labels := "67109100",
            with_rfid := "67109100", without_rfid := "0", boxes := "1118486" } ∧
    f32boxes 67109100 0 = 1118486 ∧
    exactBoxes 67109100 = 1118485 :=
  ⟨rfl, rfl, rfl⟩

end LISA
